import Mathlib

/-!
Verification of the release orchestration and changelog rewriting logic of
src/nox-utils/src/tmlt/nox_utils/_release.py.

Changelog documents are modelled as Python readlines output: a list of line
strings, each keeping its trailing newline character (the final line of a
file that does not end in a newline keeps no newline).  Regular expressions
from the source are embedded as deterministic parsers over lists of
characters; this is faithful because every alternation in those patterns is
followed by a separator character that cannot occur inside the alternatives.
The character class used by the source patterns is modelled as the ASCII
digits 0-9 (Char.isDigit).
-/

namespace NoxRelease

/-- Longest prefix of decimal digits together with the remaining characters. -/
def takeDigits : List Char → List Char × List Char
  | [] => ([], [])
  | c :: rest =>
    if c.isDigit then
      ((takeDigits rest).1.cons c, (takeDigits rest).2)
    else ([], c :: rest)

/-- The language of the numeric component pattern of the version regex in
push_release_commits: a single digit string that is either 0 or has no
leading zero. -/
def numNoLeadZero : List Char → Bool
  | [] => false
  | [c] => c.isDigit
  | c :: rest => (c.isDigit && !(c == '0')) && rest.all Char.isDigit

/-- Consume a literal character sequence, returning the remaining input. -/
def dropLit : List Char → List Char → Option (List Char)
  | [], s => some s
  | _ :: _, [] => none
  | c :: p, d :: s => if c == d then dropLit p s else none

/-- Consume one expected character. -/
def expectChar (c : Char) : List Char → Option (List Char)
  | [] => none
  | d :: r => if d == c then some r else none

/-- Consume one numeric component of the version or anchor patterns: the
maximal digit run, which must satisfy the no-leading-zero rule. -/
def parseComp (s : List Char) : Option (List Char × List Char) :=
  if numNoLeadZero (takeDigits s).1 then some (takeDigits s) else none

/-- Consume one of the pre-release kinds of the version regex in
push_release_commits: dev, alpha, beta or rc. -/
def parseKind (s : List Char) : Option (List Char × List Char) :=
  match dropLit "dev".data s with
  | some r => some ("dev".data, r)
  | none =>
    match dropLit "alpha".data s with
    | some r => some ("alpha".data, r)
    | none =>
      match dropLit "beta".data s with
      | some r => some ("beta".data, r)
      | none =>
        match dropLit "rc".data s with
        | some r => some ("rc".data, r)
        | none => none

/-- The named groups captured by the version regex of push_release_commits. -/
structure VersionMatch where
  major : List Char
  minor : List Char
  patch : List Char
  pre : Option (List Char × List Char)
deriving DecidableEq, Repr

/-- Embedding of re.fullmatch of the version pattern in push_release_commits
(_release.py lines 19-25): MAJOR.MINOR.PATCH with numeric components obeying
the no-leading-zero rule, optionally followed by -KIND.N with KIND one of
dev, alpha, beta, rc. -/
def version_fullmatch (s : String) : Option VersionMatch :=
  match parseComp s.data with
  | none => none
  | some (a, r1) =>
    match expectChar '.' r1 with
    | none => none
    | some r2 =>
      match parseComp r2 with
      | none => none
      | some (b, r3) =>
        match expectChar '.' r3 with
        | none => none
        | some r4 =>
          match parseComp r4 with
          | none => none
          | some (c, r5) =>
            if r5 = [] then some ⟨a, b, c, none⟩
            else
              match expectChar '-' r5 with
              | none => none
              | some r6 =>
                match parseKind r6 with
                | none => none
                | some (k, r7) =>
                  match expectChar '.' r7 with
                  | none => none
                  | some r8 =>
                    match parseComp r8 with
                    | none => none
                    | some (n, r9) =>
                      if r9 = [] then some ⟨a, b, c, some (k, n)⟩ else none

/-- Consume one of the pre-release kinds accepted by the anchor regex of
add_changelog_unreleased (_release.py lines 166-169): alpha, beta or rc.
Note the source anchor pattern does not list dev. -/
def anchorKind (s : List Char) : Option (List Char × List Char) :=
  match dropLit "alpha".data s with
  | some r => some ("alpha".data, r)
  | none =>
    match dropLit "beta".data s with
    | some r => some ("beta".data, r)
    | none =>
      match dropLit "rc".data s with
      | some r => some ("rc".data, r)
      | none => none

/-- Embedding of the anchor regex body of add_changelog_unreleased. -/
def anchorCore (s : List Char) : Bool :=
  match dropLit ".. _v".data s with
  | none => false
  | some r0 =>
    match parseComp r0 with
    | none => false
    | some (_, r1) =>
      match expectChar '.' r1 with
      | none => false
      | some r2 =>
        match parseComp r2 with
        | none => false
        | some (_, r3) =>
          match expectChar '.' r3 with
          | none => false
          | some r4 =>
            match parseComp r4 with
            | none => false
            | some (_, r5) =>
              if r5 = [':'] then true
              else
                match expectChar '-' r5 with
                | none => false
                | some r6 =>
                  match anchorKind r6 with
                  | none => false
                  | some (_, r7) =>
                    match expectChar '.' r7 with
                    | none => false
                    | some r8 =>
                      match parseComp r8 with
                      | none => false
                      | some (_, r9) => decide (r9 = [':'])

/-- Remove the trailing newline of a line, if present.  Python re.match with
a pattern anchored by a dollar sign matches either at the end of the string
or just before a trailing newline. -/
def stripNl (l : List Char) : List Char :=
  if l.getLast? = some '\n' then l.dropLast else l

/-- Embedding of re.match of the anchor regex against one readlines line. -/
def anchor_match (line : String) : Bool :=
  anchorCore (stripNl line.data)

/-- Embedding of re.match of the pattern Unreleased anchored at both ends
against one readlines line (_release.py line 118). -/
def unreleasedLineMatch (l : String) : Bool :=
  (l == "Unreleased") || (l == "Unreleased\n")

/-- The new section header title used by update_changelog_unreleased:
version, a spaced dash, and the ISO date of today. -/
def versionHeaderTitle (version today : String) : String :=
  version ++ " - " ++ today

/-- A string of n dash characters. -/
def dashes (n : Nat) : String :=
  ⟨List.replicate n '-'⟩

/-- The replacement lines produced by update_changelog_unreleased for the
removed Unreleased header pair: a blank line, the anchor line for the
version, a blank line, the dated header title, and its underline. -/
def versionHeaderLines (version today : String) : List String :=
  ["\n",
   ".. _v" ++ version ++ ":\n",
   "\n",
   versionHeaderTitle version today ++ "\n",
   dashes (versionHeaderTitle version today).length ++ "\n"]

/-- The two failure modes of update_changelog_unreleased: the first
Unreleased line has no well-formed underline after it, or no Unreleased
line exists at all. -/
inductive UpdateError where
  | malformed
  | notFound
deriving DecidableEq, Repr

/-- Embedding of update_changelog_unreleased (_release.py lines 108-159) on
the readlines content of CHANGELOG.rst.  The first line matching the
Unreleased pattern must be followed by exactly the ten-dash underline line;
the pair is replaced by versionHeaderLines.  On error the source raises
before writing, so the file content is unchanged. -/
def update_changelog_unreleased (version today : String) :
    List String → Except UpdateError (List String)
  | [] => Except.error UpdateError.notFound
  | l :: rest =>
    if unreleasedLineMatch l then
      match rest with
      | u :: rest2 =>
        if u == "----------\n" then
          Except.ok (versionHeaderLines version today ++ rest2)
        else Except.error UpdateError.malformed
      | [] => Except.error UpdateError.malformed
    else
      match update_changelog_unreleased version today rest with
      | Except.ok out => Except.ok (l :: out)
      | Except.error e => Except.error e

/-- The two failure modes of add_changelog_unreleased: an Unreleased line
was seen (at the given one-based line number) before any anchor line, or no
anchor line exists. -/
inductive AddError where
  | alreadyUnreleased (lineNo : Nat)
  | noAnchor
deriving DecidableEq, Repr

/-- The fresh section inserted by add_changelog_unreleased. -/
def unreleased_header : List String :=
  ["Unreleased\n", "----------\n", "\n"]

/-- Scanning loop of add_changelog_unreleased, carrying the zero-based index
of the current line. -/
def addAux (i : Nat) : List String → Except AddError (List String)
  | [] => Except.error AddError.noAnchor
  | l :: rest =>
    if l == "Unreleased\n" then
      Except.error (AddError.alreadyUnreleased (i + 1))
    else if anchor_match l then
      Except.ok (unreleased_header ++ l :: rest)
    else
      match addAux (i + 1) rest with
      | Except.ok out => Except.ok (l :: out)
      | Except.error e => Except.error e

/-- Embedding of add_changelog_unreleased (_release.py lines 162-190) on the
readlines content of CHANGELOG.rst.  The scan stops at the first line that
either equals the Unreleased header line (an error carrying its one-based
line number) or matches the anchor regex (the fresh section is inserted
right before it).  On error the source raises before writing, so the file
content is unchanged. -/
def add_changelog_unreleased (doc : List String) : Except AddError (List String) :=
  addAux 0 doc

/-- Observable git and filesystem actions performed by push_release_commits,
in order. -/
inductive GitEvent where
  | fetch (remote : String)
  | writeChangelog
  | createBranch (name : String)
  | setHead (refPath : String)
  | stage (file : String)
  | commit (msg : String)
  | createTag (name : String)
  | pushBranch (remote name : String)
  | pushTag (remote name : String)
  | resetHard
deriving DecidableEq, Repr

/-- Whether an event mutates the repository or working tree.  The fetch of
remote tags is the only read-style action in the trace. -/
def GitEvent.mutates : GitEvent → Bool
  | GitEvent.fetch _ => false
  | _ => true

/-- Whether an event pushes a ref to a remote. -/
def isPush : GitEvent → Bool
  | GitEvent.pushBranch _ _ => true
  | GitEvent.pushTag _ _ => true
  | _ => false

/-- Whether an event creates a commit. -/
def isCommitEvent : GitEvent → Bool
  | GitEvent.commit _ => true
  | _ => false

/-- The remote an event talks to, if any. -/
def eventRemote : GitEvent → Option String
  | GitEvent.fetch r => some r
  | GitEvent.pushBranch r _ => some r
  | GitEvent.pushTag r _ => some r
  | _ => none

/-- The repository state read by push_release_commits: dirtiness, untracked
files, the current branch ref path, the set of remote names, the remote
branch refs and tags as known after the fetch, and the readlines content of
CHANGELOG.rst. -/
structure GitState where
  isDirty : Bool
  untrackedFiles : List String
  currentBranchPath : String
  remotes : List String
  remoteBranchRefs : List String
  tags : List String
  changelog : List String
deriving DecidableEq, Repr

/-- The fatal errors push_release_commits can report, one constructor per
distinct message in the source. -/
inductive RunError where
  | badVersion
  | dirty
  | untracked
  | notMainBranch
  | noOrigin
  | branchExists (version : String)
  | tagExists (version : String)
  | changelogUpdate (e : UpdateError)
  | changelogAdd (e : AddError)
deriving DecidableEq, Repr

/-- The exact message text of each fatal error in the source. -/
def RunError.message : RunError → String
  | RunError.badVersion =>
      "Provided version number does not match expected semantic version format. " ++
      "Versions should look like e.g. 0.1.2 or 1.2.1-alpha.2 -- other acceptable " ++
      "pre-release types are dev, beta, and rc."
  | RunError.dirty =>
      "Git repo is dirty, stash or commit your changes before making a release"
  | RunError.untracked =>
      "Git repo contains untracked files, stash or commit your changes before " ++
      "making a release"
  | RunError.notMainBranch => "Releases may only be made from the main branch"
  | RunError.noOrigin => "No remote 'origin' exists, unsure where to push changes"
  | RunError.branchExists v => "Branch release/" ++ v ++ " already exists"
  | RunError.tagExists v => "Release tag " ++ v ++ " already exists"
  | RunError.changelogUpdate UpdateError.malformed =>
      "Renaming unreleased section in changelog failed, section header " ++
      "appears to be malformed"
  | RunError.changelogUpdate UpdateError.notFound =>
      "Renaming unreleased section in changelog failed, " ++
      "unable to find matching line"
  | RunError.changelogAdd (AddError.alreadyUnreleased n) =>
      "Changelog already contains an unreleased section on line " ++ toString n
  | RunError.changelogAdd AddError.noAnchor =>
      "Adding unreleased section in changelog failed, " ++
      "unable to find release section to place it before"

instance instDecEqExcept {ε α : Type} [DecidableEq ε] [DecidableEq α] :
    DecidableEq (Except ε α) := fun x y =>
  match x, y with
  | Except.error a, Except.error b =>
    if h : a = b then isTrue (by rw [h])
    else isFalse (fun hc => h (by cases hc; rfl))
  | Except.error _, Except.ok _ => isFalse (fun hc => Except.noConfusion hc)
  | Except.ok _, Except.error _ => isFalse (fun hc => Except.noConfusion hc)
  | Except.ok a, Except.ok b =>
    if h : a = b then isTrue (by rw [h])
    else isFalse (fun hc => h (by cases hc; rfl))

/-- Result of one run: the ordered action trace, the content of
CHANGELOG.rst on disk when the run ends, and either the reported tag and
comparison URLs or the fatal error. -/
structure RunOut where
  events : List GitEvent
  changelog : List String
  result : Except RunError (String × String)
deriving DecidableEq, Repr

/-- Step 1 of the side effects: for a final release run
update_changelog_unreleased and write the file; for a pre-release skip
(_release.py lines 63-70).  Returns the new file content and the write
events performed. -/
def changelogUpdateStage (vm : VersionMatch) (version today : String)
    (cl : List String) : Except UpdateError (List String × List GitEvent) :=
  if vm.pre.isSome then Except.ok (cl, [])
  else
    match update_changelog_unreleased version today cl with
    | Except.ok cl2 => Except.ok (cl2, [GitEvent.writeChangelog])
    | Except.error e => Except.error e

/-- Step 5 first half: for a final release run add_changelog_unreleased and
write the file; for a pre-release skip (_release.py lines 81-82).  A failure
here is an uncaught exception in the source. -/
def changelogAddStage (vm : VersionMatch) (cl : List String) :
    Except AddError (List String × List GitEvent) :=
  if vm.pre.isSome then Except.ok (cl, [])
  else
    match add_changelog_unreleased cl with
    | Except.ok cl2 => Except.ok (cl2, [GitEvent.writeChangelog])
    | Except.error e => Except.error e

/-- The branch, checkout, stage, release commit and tag actions of
_release.py lines 72-79. -/
def releaseEvents (version : String) : List GitEvent :=
  [GitEvent.createBranch ("release/" ++ version),
   GitEvent.setHead ("refs/heads/release/" ++ version),
   GitEvent.stage "CHANGELOG.rst",
   GitEvent.commit ("[auto] Release " ++ version),
   GitEvent.createTag version]

/-- The unconditional post-release stage and commit, the branch push, the
tag push, the checkout of the original branch and the hard reset of
_release.py lines 84-94, in source order. -/
def finishEvents (st : GitState) (version : String) : List GitEvent :=
  [GitEvent.stage "CHANGELOG.rst",
   GitEvent.commit ("[auto] Post-release " ++ version),
   GitEvent.pushBranch "origin" ("release/" ++ version),
   GitEvent.pushTag "origin" version,
   GitEvent.setHead st.currentBranchPath,
   GitEvent.resetHard]

/-- The tag URL reported on success (_release.py lines 96-99). -/
def tagUrl (pg version : String) : String :=
  "https://github.com/" ++ pg ++ "/releases/tag/" ++ version

/-- The comparison URL reported on success (_release.py line 105). -/
def compareUrl (pg version : String) : String :=
  "https://github.com/" ++ pg ++ "/compare/release/" ++ version ++ "?expand=1"

/-- Embedding of push_release_commits (_release.py lines 15-105).  Each
sess.error call and the uncaught exception of the add stage terminate the
run with the corresponding error; the checks run in source order.  The final
hard reset restores the working tree of the original branch, so on success
the file content on disk is the original changelog. -/
def push_release_commits (st : GitState) (package_github version today : String) :
    RunOut :=
  match version_fullmatch version with
  | none => ⟨[], st.changelog, Except.error RunError.badVersion⟩
  | some vm =>
    if st.isDirty then ⟨[], st.changelog, Except.error RunError.dirty⟩
    else if !st.untrackedFiles.isEmpty then
      ⟨[], st.changelog, Except.error RunError.untracked⟩
    else if (st.currentBranchPath != "refs/heads/main") && !vm.pre.isSome then
      ⟨[], st.changelog, Except.error RunError.notMainBranch⟩
    else if !(st.remotes.contains "origin") then
      ⟨[], st.changelog, Except.error RunError.noOrigin⟩
    else if st.remoteBranchRefs.contains ("refs/remotes/origin/release/" ++ version) then
      ⟨[GitEvent.fetch "origin"], st.changelog,
        Except.error (RunError.branchExists version)⟩
    else if st.tags.contains version then
      ⟨[GitEvent.fetch "origin"], st.changelog,
        Except.error (RunError.tagExists version)⟩
    else
      match changelogUpdateStage vm version today st.changelog with
      | Except.error e =>
          ⟨[GitEvent.fetch "origin"], st.changelog,
            Except.error (RunError.changelogUpdate e)⟩
      | Except.ok (cl1, evU) =>
        match changelogAddStage vm cl1 with
        | Except.error e =>
            ⟨GitEvent.fetch "origin" :: evU ++ releaseEvents version, cl1,
              Except.error (RunError.changelogAdd e)⟩
        | Except.ok (_cl2, evA) =>
            ⟨GitEvent.fetch "origin" :: evU ++ releaseEvents version ++ evA ++
                finishEvents st version,
              st.changelog,
              Except.ok (tagUrl package_github version,
                compareUrl package_github version)⟩

/-- Modelled from the claim wording for C1: a digit string component that is
either 0 or has no leading zero. -/
def SpecNum (l : List Char) : Prop :=
  l ≠ [] ∧ (∀ c ∈ l, c.isDigit = true) ∧ (l = ['0'] ∨ l.headI ≠ '0')

/-- Modelled from the claim wording for C1: the semantic version grammar
MAJOR.MINOR.PATCH optionally followed by -KIND.N with KIND one of dev,
alpha, beta, rc. -/
def SpecSemVer (s : String) : Prop :=
  ∃ a b c : List Char, SpecNum a ∧ SpecNum b ∧ SpecNum c ∧
    (s.data = a ++ '.' :: (b ++ '.' :: c) ∨
     ∃ k n : List Char,
       (k = "dev".data ∨ k = "alpha".data ∨ k = "beta".data ∨ k = "rc".data) ∧
       SpecNum n ∧
       s.data = a ++ '.' :: (b ++ '.' :: (c ++ '-' :: (k ++ '.' :: n))))

/-- Modelled from the claim wording for C2: the anchor pattern as the claim
states it, with the pre-release kinds dev, alpha, beta and rc all
recognized.  The source anchor regex differs: it has no dev alternative. -/
def specAnchorCore (s : List Char) : Bool :=
  match dropLit ".. _v".data s with
  | none => false
  | some r0 =>
    match parseComp r0 with
    | none => false
    | some (_, r1) =>
      match expectChar '.' r1 with
      | none => false
      | some r2 =>
        match parseComp r2 with
        | none => false
        | some (_, r3) =>
          match expectChar '.' r3 with
          | none => false
          | some r4 =>
            match parseComp r4 with
            | none => false
            | some (_, r5) =>
              if r5 = [':'] then true
              else
                match expectChar '-' r5 with
                | none => false
                | some r6 =>
                  match parseKind r6 with
                  | none => false
                  | some (_, r7) =>
                    match expectChar '.' r7 with
                    | none => false
                    | some r8 =>
                      match parseComp r8 with
                      | none => false
                      | some (_, r9) => decide (r9 = [':'])

/-- Modelled from the claim wording for C2: anchor matching on a readlines
line, with dev recognized as the claim states. -/
def specAnchorMatch (line : String) : Bool :=
  specAnchorCore (stripNl line.data)

/-- A clean repository on the main branch with an ordinary changelog, used
to evaluate the model at concrete inputs. -/
def mainState : GitState :=
  { isDirty := false
    untrackedFiles := []
    currentBranchPath := "refs/heads/main"
    remotes := ["origin"]
    remoteBranchRefs := []
    tags := []
    changelog := ["Unreleased\n", "----------\n", "\n", "Fixed a bug.\n"] }

/-- The same clean repository checked out on a feature branch. -/
def featureState : GitState :=
  { mainState with currentBranchPath := "refs/heads/feature" }

/-! Lemmas about the digit-run and literal parsers. -/

theorem takeDigits_eq_append (s : List Char) :
    (takeDigits s).1 ++ (takeDigits s).2 = s := by
  induction s with
  | nil => rfl
  | cons c rest ih =>
    by_cases h : c.isDigit = true
    · simp [takeDigits, h, ih]
    · simp [takeDigits, h]

theorem takeDigits_snd_head (s : List Char) :
    ∀ c, (takeDigits s).2.head? = some c → c.isDigit = false := by
  induction s with
  | nil => intro c hc; simp [takeDigits] at hc
  | cons d rest ih =>
    intro c hc
    by_cases h : d.isDigit = true
    · simp only [takeDigits, h, if_true] at hc
      exact ih c hc
    · simp only [takeDigits, h, if_false, Bool.false_eq_true, List.head?_cons,
        Option.some.injEq] at hc
      subst hc
      simpa using h

theorem takeDigits_append (a r : List Char)
    (ha : ∀ c ∈ a, c.isDigit = true)
    (hr : ∀ c, r.head? = some c → c.isDigit = false) :
    takeDigits (a ++ r) = (a, r) := by
  induction a with
  | nil =>
    cases r with
    | nil => rfl
    | cons d r2 =>
      have hd := hr d rfl
      simp [takeDigits, hd]
  | cons c a2 ih =>
    have hc : c.isDigit = true := ha c (by simp)
    have ih2 := ih (fun x hx => ha x (by simp [hx]))
    simp [takeDigits, hc, ih2]

theorem numNoLeadZero_digits (l : List Char) (h : numNoLeadZero l = true) :
    ∀ c ∈ l, c.isDigit = true := by
  match l with
  | [] => simp [numNoLeadZero] at h
  | [c] =>
    intro x hx
    simp only [List.mem_singleton] at hx
    subst hx
    simpa [numNoLeadZero] using h
  | c :: d :: rest =>
    intro x hx
    simp only [numNoLeadZero, Bool.and_eq_true, List.all_eq_true] at h
    obtain ⟨⟨hc, -⟩, hall⟩ := h
    rcases List.mem_cons.mp hx with h1 | h2
    · subst h1; exact hc
    · exact hall x h2

theorem specNum_iff (l : List Char) : SpecNum l ↔ numNoLeadZero l = true := by
  match l with
  | [] => simp [SpecNum, numNoLeadZero]
  | [c] =>
    constructor
    · rintro ⟨-, hd, -⟩
      simpa [numNoLeadZero] using hd c (by simp)
    · intro h
      refine ⟨by simp, ?_, ?_⟩
      · intro x hx
        simp only [List.mem_singleton] at hx
        subst hx
        simpa [numNoLeadZero] using h
      · by_cases hc : c = '0'
        · subst hc; exact Or.inl rfl
        · exact Or.inr (by simpa [List.headI] using hc)
  | c :: d :: rest =>
    constructor
    · rintro ⟨-, hd, hz⟩
      have hne : c ≠ '0' := by
        rcases hz with h1 | h2
        · exact absurd h1 (by simp)
        · simpa [List.headI] using h2
      simp only [numNoLeadZero, Bool.and_eq_true, List.all_eq_true]
      exact ⟨⟨hd c (by simp), by simpa using hne⟩, fun x hx => hd x (by simp [hx])⟩
    · intro h
      simp only [numNoLeadZero, Bool.and_eq_true, List.all_eq_true] at h
      obtain ⟨⟨hc, hc0⟩, hall⟩ := h
      refine ⟨by simp, ?_, Or.inr ?_⟩
      · intro x hx
        rcases List.mem_cons.mp hx with h1 | h2
        · subst h1; exact hc
        · exact hall x h2
      · simpa [List.headI] using hc0

theorem dropLit_sound (p : List Char) :
    ∀ s r, dropLit p s = some r → s = p ++ r := by
  induction p with
  | nil =>
    intro s r h
    simp only [dropLit, Option.some.injEq] at h
    simp [h]
  | cons c p2 ih =>
    intro s r h
    cases s with
    | nil => simp [dropLit] at h
    | cons d s2 =>
      by_cases hcd : (c == d) = true
      · simp only [dropLit, hcd, if_true] at h
        have h2 := ih s2 r h
        simp [h2, eq_of_beq hcd]
      · simp [dropLit, hcd] at h

theorem dropLit_self (p r : List Char) : dropLit p (p ++ r) = some r := by
  induction p with
  | nil => rfl
  | cons c p2 ih => simp [dropLit, ih]

theorem expectChar_sound (c : Char) (s r : List Char)
    (h : expectChar c s = some r) : s = c :: r := by
  cases s with
  | nil => simp [expectChar] at h
  | cons d s2 =>
    by_cases hdc : (d == c) = true
    · simp only [expectChar, hdc, if_true, Option.some.injEq] at h
      simp [h, eq_of_beq hdc]
    · simp [expectChar, hdc] at h

theorem expectChar_cons_self (c : Char) (r : List Char) :
    expectChar c (c :: r) = some r := by
  simp [expectChar]

theorem parseComp_sound (s a r : List Char) (h : parseComp s = some (a, r)) :
    numNoLeadZero a = true ∧ s = a ++ r ∧
      (∀ c, r.head? = some c → c.isDigit = false) := by
  unfold parseComp at h
  split at h
  case isTrue hnum =>
    have ht : takeDigits s = (a, r) := Option.some.inj h
    refine ⟨?_, ?_, ?_⟩
    · rw [ht] at hnum; exact hnum
    · have h2 := takeDigits_eq_append s
      rw [ht] at h2
      exact h2.symm
    · have h3 := takeDigits_snd_head s
      rw [ht] at h3
      exact h3
  case isFalse => exact absurd h (by simp)

theorem parseComp_append (a r : List Char) (ha : numNoLeadZero a = true)
    (hr : ∀ c, r.head? = some c → c.isDigit = false) :
    parseComp (a ++ r) = some (a, r) := by
  have hd : ∀ c ∈ a, c.isDigit = true := numNoLeadZero_digits a ha
  unfold parseComp
  rw [takeDigits_append a r hd hr]
  simp [ha]

theorem parseKind_sound (s k r : List Char) (h : parseKind s = some (k, r)) :
    (k = "dev".data ∨ k = "alpha".data ∨ k = "beta".data ∨ k = "rc".data) ∧
      s = k ++ r := by
  unfold parseKind at h
  split at h
  next r0 heq =>
    simp only [Option.some.injEq, Prod.mk.injEq] at h
    obtain ⟨hk, hr⟩ := h
    subst hk; subst hr
    exact ⟨Or.inl rfl, dropLit_sound _ _ _ heq⟩
  next heq0 =>
    split at h
    next r0 heq =>
      simp only [Option.some.injEq, Prod.mk.injEq] at h
      obtain ⟨hk, hr⟩ := h
      subst hk; subst hr
      exact ⟨Or.inr (Or.inl rfl), dropLit_sound _ _ _ heq⟩
    next heq1 =>
      split at h
      next r0 heq =>
        simp only [Option.some.injEq, Prod.mk.injEq] at h
        obtain ⟨hk, hr⟩ := h
        subst hk; subst hr
        exact ⟨Or.inr (Or.inr (Or.inl rfl)), dropLit_sound _ _ _ heq⟩
      next heq2 =>
        split at h
        next r0 heq =>
          simp only [Option.some.injEq, Prod.mk.injEq] at h
          obtain ⟨hk, hr⟩ := h
          subst hk; subst hr
          exact ⟨Or.inr (Or.inr (Or.inr rfl)), dropLit_sound _ _ _ heq⟩
        next => exact absurd h (by simp)

theorem parseKind_dev (r : List Char) :
    parseKind ("dev".data ++ r) = some ("dev".data, r) := rfl

theorem parseKind_alpha (r : List Char) :
    parseKind ("alpha".data ++ r) = some ("alpha".data, r) := rfl

theorem parseKind_beta (r : List Char) :
    parseKind ("beta".data ++ r) = some ("beta".data, r) := rfl

theorem parseKind_rc (r : List Char) :
    parseKind ("rc".data ++ r) = some ("rc".data, r) := rfl

/-! Soundness and completeness of the version regex embedding. -/

theorem version_fullmatch_sound (s : String) (vm : VersionMatch)
    (h : version_fullmatch s = some vm) :
    numNoLeadZero vm.major = true ∧ numNoLeadZero vm.minor = true ∧
      numNoLeadZero vm.patch = true ∧
      ((vm.pre = none ∧
          s.data = vm.major ++ '.' :: (vm.minor ++ '.' :: vm.patch)) ∨
       (∃ k n : List Char, vm.pre = some (k, n) ∧
          (k = "dev".data ∨ k = "alpha".data ∨ k = "beta".data ∨ k = "rc".data) ∧
          numNoLeadZero n = true ∧
          s.data = vm.major ++ '.' :: (vm.minor ++ '.' ::
            (vm.patch ++ '-' :: (k ++ '.' :: n))))) := by
  unfold version_fullmatch at h
  split at h
  next => exact absurd h (by simp)
  next a r1 hp1 =>
    split at h
    next => exact absurd h (by simp)
    next r2 he1 =>
      split at h
      next => exact absurd h (by simp)
      next b r3 hp2 =>
        split at h
        next => exact absurd h (by simp)
        next r4 he2 =>
          split at h
          next => exact absurd h (by simp)
          next c r5 hp3 =>
            obtain ⟨ha, hs1, -⟩ := parseComp_sound _ _ _ hp1
            have hr1 := expectChar_sound _ _ _ he1
            obtain ⟨hb, hs2, -⟩ := parseComp_sound _ _ _ hp2
            have hr3 := expectChar_sound _ _ _ he2
            obtain ⟨hc, hs3, -⟩ := parseComp_sound _ _ _ hp3
            split at h
            next hr5 =>
              injection h with h2
              subst h2
              subst hr5
              refine ⟨ha, hb, hc, Or.inl ⟨rfl, ?_⟩⟩
              rw [hs1, hr1, hs2, hr3, hs3]
              simp
            next hr5 =>
              split at h
              next => exact absurd h (by simp)
              next r6 he3 =>
                split at h
                next => exact absurd h (by simp)
                next k r7 hk =>
                  split at h
                  next => exact absurd h (by simp)
                  next r8 he4 =>
                    split at h
                    next => exact absurd h (by simp)
                    next n r9 hp4 =>
                      split at h
                      next hr9 =>
                        injection h with h2
                        subst h2
                        subst hr9
                        have hr5b := expectChar_sound _ _ _ he3
                        obtain ⟨hks, hr6⟩ := parseKind_sound _ _ _ hk
                        have hr7 := expectChar_sound _ _ _ he4
                        obtain ⟨hn, hs4, -⟩ := parseComp_sound _ _ _ hp4
                        refine ⟨ha, hb, hc,
                          Or.inr ⟨k, n, rfl, hks, hn, ?_⟩⟩
                        rw [hs1, hr1, hs2, hr3, hs3, hr5b, hr6, hr7, hs4]
                        simp
                      next => exact absurd h (by simp)

theorem version_fullmatch_base (s : String) (a b c : List Char)
    (ha : numNoLeadZero a = true) (hb : numNoLeadZero b = true)
    (hc : numNoLeadZero c = true)
    (hs : s.data = a ++ '.' :: (b ++ '.' :: c)) :
    version_fullmatch s = some ⟨a, b, c, none⟩ := by
  have h1 : parseComp (a ++ '.' :: (b ++ '.' :: c)) =
      some (a, '.' :: (b ++ '.' :: c)) :=
    parseComp_append _ _ ha (fun x hx => by cases Option.some.inj hx; decide)
  have h2 : parseComp (b ++ '.' :: c) = some (b, '.' :: c) :=
    parseComp_append _ _ hb (fun x hx => by cases Option.some.inj hx; decide)
  have h3 : parseComp c = some (c, []) := by
    have h4 := parseComp_append c [] hc (fun x hx => by simp at hx)
    simpa using h4
  unfold version_fullmatch
  rw [hs, h1]
  simp [h2, h3, expectChar_cons_self]

theorem version_fullmatch_pre (s : String) (a b c k n : List Char)
    (ha : numNoLeadZero a = true) (hb : numNoLeadZero b = true)
    (hc : numNoLeadZero c = true) (hn : numNoLeadZero n = true)
    (hk : k = "dev".data ∨ k = "alpha".data ∨ k = "beta".data ∨ k = "rc".data)
    (hs : s.data = a ++ '.' :: (b ++ '.' :: (c ++ '-' :: (k ++ '.' :: n)))) :
    version_fullmatch s = some ⟨a, b, c, some (k, n)⟩ := by
  have h1 : parseComp (a ++ '.' :: (b ++ '.' :: (c ++ '-' :: (k ++ '.' :: n)))) =
      some (a, '.' :: (b ++ '.' :: (c ++ '-' :: (k ++ '.' :: n)))) :=
    parseComp_append _ _ ha (fun x hx => by cases Option.some.inj hx; decide)
  have h2 : parseComp (b ++ '.' :: (c ++ '-' :: (k ++ '.' :: n))) =
      some (b, '.' :: (c ++ '-' :: (k ++ '.' :: n))) :=
    parseComp_append _ _ hb (fun x hx => by cases Option.some.inj hx; decide)
  have h3 : parseComp (c ++ '-' :: (k ++ '.' :: n)) =
      some (c, '-' :: (k ++ '.' :: n)) :=
    parseComp_append _ _ hc (fun x hx => by cases Option.some.inj hx; decide)
  have h4 : parseKind (k ++ '.' :: n) = some (k, '.' :: n) := by
    rcases hk with h | h | h | h <;> subst h
    · exact parseKind_dev _
    · exact parseKind_alpha _
    · exact parseKind_beta _
    · exact parseKind_rc _
  have h5 : parseComp n = some (n, []) := by
    have h6 := parseComp_append n [] hn (fun x hx => by simp at hx)
    simpa using h6
  unfold version_fullmatch
  rw [hs, h1]
  simp [h2, h3, h4, h5, expectChar_cons_self]

theorem specSemVer_iff_isSome (s : String) :
    (version_fullmatch s).isSome = true ↔ SpecSemVer s := by
  constructor
  · intro h
    rcases ho : version_fullmatch s with - | vm
    · rw [ho] at h; simp at h
    · obtain ⟨ha, hb, hc, hrest⟩ := version_fullmatch_sound s vm ho
      rcases hrest with ⟨-, hs⟩ | ⟨k, n, -, hk, hn, hs⟩
      · exact ⟨vm.major, vm.minor, vm.patch, (specNum_iff _).mpr ha,
          (specNum_iff _).mpr hb, (specNum_iff _).mpr hc, Or.inl hs⟩
      · exact ⟨vm.major, vm.minor, vm.patch, (specNum_iff _).mpr ha,
          (specNum_iff _).mpr hb, (specNum_iff _).mpr hc,
          Or.inr ⟨k, n, hk, (specNum_iff _).mpr hn, hs⟩⟩
  · rintro ⟨a, b, c, ha, hb, hc, hs | ⟨k, n, hk, hn, hs⟩⟩
    · rw [version_fullmatch_base s a b c ((specNum_iff _).mp ha)
        ((specNum_iff _).mp hb) ((specNum_iff _).mp hc) hs]
      rfl
    · rw [version_fullmatch_pre s a b c k n ((specNum_iff _).mp ha)
        ((specNum_iff _).mp hb) ((specNum_iff _).mp hc)
        ((specNum_iff _).mp hn) hk hs]
      rfl

theorem stripNl_newline (xs : List Char) : stripNl (xs ++ ['\n']) = xs := by
  simp [stripNl, List.getLast?_concat, List.dropLast_concat]

theorem anchor_match_final (v : String) (vm : VersionMatch)
    (hv : version_fullmatch v = some vm) (hfin : vm.pre = none) :
    anchor_match (".. _v" ++ v ++ ":\n") = true := by
  obtain ⟨ha, hb, hc, hrest⟩ := version_fullmatch_sound v vm hv
  rcases hrest with ⟨-, hs⟩ | ⟨k, n, hpre2, -⟩
  · unfold anchor_match
    have hdata : stripNl ((".. _v" ++ v ++ ":\n").data) =
        ".. _v".data ++ (vm.major ++ '.' :: (vm.minor ++ '.' ::
          (vm.patch ++ [':']))) := by
      have h0 : (".. _v" ++ v ++ ":\n").data =
          (".. _v".data ++ (vm.major ++ '.' :: (vm.minor ++ '.' ::
            (vm.patch ++ [':'])))) ++ ['\n'] := by
        simp [String.data_append, hs]
      rw [h0, stripNl_newline]
    rw [hdata]
    have h1 : parseComp (vm.major ++ '.' :: (vm.minor ++ '.' ::
        (vm.patch ++ [':']))) = some (vm.major, '.' :: (vm.minor ++ '.' ::
        (vm.patch ++ [':']))) :=
      parseComp_append _ _ ha (fun x hx => by cases Option.some.inj hx; decide)
    have h2 : parseComp (vm.minor ++ '.' :: (vm.patch ++ [':'])) =
        some (vm.minor, '.' :: (vm.patch ++ [':'])) :=
      parseComp_append _ _ hb (fun x hx => by cases Option.some.inj hx; decide)
    have h3 : parseComp (vm.patch ++ [':']) = some (vm.patch, [':']) :=
      parseComp_append _ _ hc (fun x hx => by cases Option.some.inj hx; decide)
    unfold anchorCore
    rw [dropLit_self]
    simp [h1, h2, h3, expectChar_cons_self]
  · rw [hpre2] at hfin; simp at hfin

/-- Claim C1: release validation accepts an input string iff it matches the
semantic version grammar MAJOR.MINOR.PATCH (each component either 0 or with
no leading zero) optionally followed by -KIND.N with KIND in dev, alpha,
beta, rc and N obeying the same rule; every non-matching string makes the
run stop with the version format error before any repository action: the
event trace is empty and the changelog is unchanged. -/
theorem claim_C1 (s : String) :
    ((version_fullmatch s).isSome = true ↔ SpecSemVer s) ∧
    (¬ SpecSemVer s → ∀ (st : GitState) (pg today : String),
      push_release_commits st pg s today =
        ⟨[], st.changelog, Except.error RunError.badVersion⟩) := by
  refine ⟨specSemVer_iff_isSome s, ?_⟩
  intro hns st pg today
  have hnone : version_fullmatch s = none := by
    rcases ho : version_fullmatch s with - | vm
    · rfl
    · exact absurd ((specSemVer_iff_isSome s).mp (by rw [ho]; rfl)) hns
  unfold push_release_commits
  rw [hnone]

/-- Witness for C1 at the rejected input 01.2.3. -/
theorem claim_C1_witness :
    push_release_commits mainState "org/repo" "01.2.3" "2026-10-12" =
      ⟨[], mainState.changelog, Except.error RunError.badVersion⟩ :=
  (claim_C1 "01.2.3").2
    (fun h => absurd ((claim_C1 "01.2.3").1.mpr h) (by decide))
    mainState "org/repo" "2026-10-12"

/-! Lemmas about the changelog rewrite. -/

theorem update_append (v t : String) (pre post : List String)
    (hpre : ∀ l ∈ pre, unreleasedLineMatch l = false) :
    update_changelog_unreleased v t
        (pre ++ "Unreleased\n" :: "----------\n" :: post) =
      Except.ok (pre ++ versionHeaderLines v t ++ post) := by
  induction pre with
  | nil =>
    have hm : unreleasedLineMatch "Unreleased\n" = true := by decide
    simp [update_changelog_unreleased, hm]
  | cons l pre2 ih =>
    have hl : unreleasedLineMatch l = false := hpre l (by simp)
    have ih2 := ih (fun x hx => hpre x (by simp [hx]))
    simp [update_changelog_unreleased, hl, ih2]

theorem update_malformed_iff (v t : String) (doc : List String) :
    update_changelog_unreleased v t doc = Except.error UpdateError.malformed ↔
      ∃ pre l rest, doc = pre ++ l :: rest ∧ unreleasedLineMatch l = true ∧
        (∀ x ∈ pre, unreleasedLineMatch x = false) ∧
        rest.head? ≠ some "----------\n" := by
  induction doc with
  | nil =>
    simp only [update_changelog_unreleased]
    constructor
    · intro h; exact absurd h (by simp)
    · rintro ⟨pre, l, rest, heq, -⟩
      exact absurd heq (by simp)
  | cons x xs ih =>
    by_cases hm : unreleasedLineMatch x = true
    · cases xs with
      | nil =>
        constructor
        · intro _
          exact ⟨[], x, [], rfl, hm, by simp, by simp⟩
        · intro _
          simp [update_changelog_unreleased, hm]
      | cons u xs2 =>
        by_cases hu : u = "----------\n"
        · subst hu
          constructor
          · intro h
            exact absurd h (by simp [update_changelog_unreleased, hm])
          · rintro ⟨pre, l, rest, heq, hl, hprex, hh⟩
            cases pre with
            | nil =>
              simp only [List.nil_append, List.cons.injEq] at heq
              obtain ⟨-, heq2⟩ := heq
              rw [← heq2] at hh
              exact absurd rfl hh
            | cons p pre2 =>
              simp only [List.cons_append, List.cons.injEq] at heq
              obtain ⟨hp, -⟩ := heq
              have h5 := hprex p (by simp)
              rw [← hp] at h5
              rw [hm] at h5
              exact absurd h5 (by simp)
        · constructor
          · intro _
            refine ⟨[], x, u :: xs2, rfl, hm, by simp, by simp [hu]⟩
          · intro _
            have hub : (u == "----------\n") = false := by simpa using hu
            simp [update_changelog_unreleased, hm, hub]
    · have hm2 : unreleasedLineMatch x = false := by simpa using hm
      have hstrip : (∃ pre l rest, x :: xs = pre ++ l :: rest ∧
          unreleasedLineMatch l = true ∧
          (∀ y ∈ pre, unreleasedLineMatch y = false) ∧
          rest.head? ≠ some "----------\n") ↔
          (∃ pre l rest, xs = pre ++ l :: rest ∧
          unreleasedLineMatch l = true ∧
          (∀ y ∈ pre, unreleasedLineMatch y = false) ∧
          rest.head? ≠ some "----------\n") := by
        constructor
        · rintro ⟨pre, l, rest, heq, hl, hp, hh⟩
          cases pre with
          | nil =>
            simp only [List.nil_append, List.cons.injEq] at heq
            obtain ⟨h1, -⟩ := heq
            rw [← h1] at hl
            rw [hl] at hm2
            exact absurd hm2 (by simp)
          | cons p pre2 =>
            simp only [List.cons_append, List.cons.injEq] at heq
            obtain ⟨-, h2⟩ := heq
            exact ⟨pre2, l, rest, h2, hl, fun y hy => hp y (by simp [hy]), hh⟩
        · rintro ⟨pre, l, rest, heq, hl, hp, hh⟩
          refine ⟨x :: pre, l, rest, by simp [heq], hl, ?_, hh⟩
          intro y hy
          rcases List.mem_cons.mp hy with h1 | h2
          · subst h1; exact hm2
          · exact hp y h2
      rw [hstrip, ← ih]
      cases hux : update_changelog_unreleased v t xs with
      | ok o => simp [update_changelog_unreleased, hm2, hux]
      | error e => simp [update_changelog_unreleased, hm2, hux]

theorem update_notFound_iff (v t : String) (doc : List String) :
    update_changelog_unreleased v t doc = Except.error UpdateError.notFound ↔
      ∀ l ∈ doc, unreleasedLineMatch l = false := by
  induction doc with
  | nil => simp [update_changelog_unreleased]
  | cons x xs ih =>
    by_cases hm : unreleasedLineMatch x = true
    · have hr : ¬ (∀ l ∈ x :: xs, unreleasedLineMatch l = false) := by
        intro hall
        have := hall x (by simp)
        rw [hm] at this
        exact absurd this (by simp)
      constructor
      · intro hL
        exfalso
        cases xs with
        | nil => simp [update_changelog_unreleased, hm] at hL
        | cons u xs2 =>
          by_cases hu : (u == "----------\n") = true
          · simp [update_changelog_unreleased, hm, hu] at hL
          · simp [update_changelog_unreleased, hm, hu] at hL
      · intro hall; exact absurd hall hr
    · have hm2 : unreleasedLineMatch x = false := by simpa using hm
      have hcons : (∀ l ∈ x :: xs, unreleasedLineMatch l = false) ↔
          (∀ l ∈ xs, unreleasedLineMatch l = false) := by
        constructor
        · intro h l hl; exact h l (by simp [hl])
        · intro h l hl
          rcases List.mem_cons.mp hl with h1 | h2
          · subst h1; exact hm2
          · exact h l h2
      rw [hcons, ← ih]
      cases hux : update_changelog_unreleased v t xs with
      | ok o => simp [update_changelog_unreleased, hm2, hux]
      | error e => simp [update_changelog_unreleased, hm2, hux]

/-! Lemmas about the fresh Unreleased insertion. -/

theorem beq_unrel_of_match_false (l : String)
    (h : unreleasedLineMatch l = false) : (l == "Unreleased\n") = false := by
  simp only [unreleasedLineMatch, Bool.or_eq_false_iff] at h
  exact h.2

theorem addAux_anchor (i : Nat) (pre rest : List String) (a : String)
    (hpre : ∀ l ∈ pre, (l == "Unreleased\n") = false ∧ anchor_match l = false)
    (ha : anchor_match a = true) :
    addAux i (pre ++ a :: rest) =
      Except.ok (pre ++ unreleased_header ++ a :: rest) := by
  induction pre generalizing i with
  | nil =>
    have hne : (a == "Unreleased\n") = false := by
      by_cases h : a = "Unreleased\n"
      · subst h
        rw [show anchor_match "Unreleased\n" = false from by decide] at ha
        exact absurd ha (by simp)
      · simpa using h
    simp [addAux, hne, ha]
  | cons l pre2 ih =>
    obtain ⟨h1, h2⟩ := hpre l (by simp)
    have ih2 := ih (i + 1) (fun x hx => hpre x (by simp [hx]))
    simp [addAux, h1, h2, ih2]

theorem addAux_unreleased (i : Nat) (pre rest : List String)
    (hpre : ∀ l ∈ pre, (l == "Unreleased\n") = false ∧ anchor_match l = false) :
    addAux i (pre ++ "Unreleased\n" :: rest) =
      Except.error (AddError.alreadyUnreleased (i + pre.length + 1)) := by
  induction pre generalizing i with
  | nil => simp [addAux]
  | cons l pre2 ih =>
    obtain ⟨h1, h2⟩ := hpre l (by simp)
    have ih2 := ih (i + 1) (fun x hx => hpre x (by simp [hx]))
    simp [addAux, h1, h2, ih2]
    omega

/-! Lemmas about the orchestration stages. -/

theorem updateStage_pre_skip (vm : VersionMatch) (v t : String)
    (cl : List String) (h : vm.pre.isSome = true) :
    changelogUpdateStage vm v t cl = Except.ok (cl, []) := by
  simp [changelogUpdateStage, h]

theorem addStage_pre_skip (vm : VersionMatch) (cl : List String)
    (h : vm.pre.isSome = true) :
    changelogAddStage vm cl = Except.ok (cl, []) := by
  simp [changelogAddStage, h]

theorem updateStage_events (vm : VersionMatch) (v t : String)
    (cl cl2 : List String) (evU : List GitEvent)
    (h : changelogUpdateStage vm v t cl = Except.ok (cl2, evU)) :
    evU = [] ∨ evU = [GitEvent.writeChangelog] := by
  unfold changelogUpdateStage at h
  split at h
  next =>
    simp only [Except.ok.injEq, Prod.mk.injEq] at h
    exact Or.inl h.2.symm
  next =>
    split at h
    next =>
      simp only [Except.ok.injEq, Prod.mk.injEq] at h
      exact Or.inr h.2.symm
    next => exact absurd h (by simp)

theorem addStage_events (vm : VersionMatch) (cl cl2 : List String)
    (evA : List GitEvent)
    (h : changelogAddStage vm cl = Except.ok (cl2, evA)) :
    evA = [] ∨ evA = [GitEvent.writeChangelog] := by
  unfold changelogAddStage at h
  split at h
  next =>
    simp only [Except.ok.injEq, Prod.mk.injEq] at h
    exact Or.inl h.2.symm
  next =>
    split at h
    next =>
      simp only [Except.ok.injEq, Prod.mk.injEq] at h
      exact Or.inr h.2.symm
    next => exact absurd h (by simp)

theorem push_shape (st : GitState) (pg v today : String) (vm : VersionMatch)
    (hv : version_fullmatch v = some vm) :
    (∃ er : RunError, push_release_commits st pg v today =
        ⟨[], st.changelog, Except.error er⟩) ∨
    (∃ er : RunError, push_release_commits st pg v today =
        ⟨[GitEvent.fetch "origin"], st.changelog, Except.error er⟩) ∨
    (∃ cl1 evU e, push_release_commits st pg v today =
        ⟨GitEvent.fetch "origin" :: evU ++ releaseEvents v, cl1,
          Except.error (RunError.changelogAdd e)⟩ ∧
        changelogUpdateStage vm v today st.changelog = Except.ok (cl1, evU) ∧
        changelogAddStage vm cl1 = Except.error e) ∨
    (∃ cl1 evU cl2 evA, push_release_commits st pg v today =
        ⟨GitEvent.fetch "origin" :: evU ++ releaseEvents v ++ evA ++
            finishEvents st v, st.changelog,
          Except.ok (tagUrl pg v, compareUrl pg v)⟩ ∧
        changelogUpdateStage vm v today st.changelog = Except.ok (cl1, evU) ∧
        changelogAddStage vm cl1 = Except.ok (cl2, evA)) := by
  unfold push_release_commits
  rw [hv]
  by_cases h1 : st.isDirty = true
  · exact Or.inl ⟨RunError.dirty, by simp [h1]⟩
  · by_cases h2 : st.untrackedFiles.isEmpty = true
    · by_cases h3 : ¬st.currentBranchPath = "refs/heads/main" ∧ vm.pre = none
      · exact Or.inl ⟨RunError.notMainBranch, by simp [h1, h2, h3.1, h3.2]⟩
      · by_cases h4 : "origin" ∈ st.remotes
        · by_cases h5 : ("refs/remotes/origin/release/" ++ v) ∈
              st.remoteBranchRefs
          · exact Or.inr (Or.inl ⟨RunError.branchExists v,
              by simp [h1, h2, h3, h4, h5]⟩)
          · by_cases h6 : v ∈ st.tags
            · exact Or.inr (Or.inl ⟨RunError.tagExists v,
                by simp [h1, h2, h3, h4, h5, h6]⟩)
            · cases hu : changelogUpdateStage vm v today st.changelog with
              | error e =>
                exact Or.inr (Or.inl ⟨RunError.changelogUpdate e,
                  by simp [h1, h2, h3, h4, h5, h6, hu]⟩)
              | ok p =>
                obtain ⟨cl1, evU⟩ := p
                cases hA : changelogAddStage vm cl1 with
                | error e =>
                  exact Or.inr (Or.inr (Or.inl ⟨cl1, evU, e,
                    by simp [h1, h2, h3, h4, h5, h6, hu, hA], rfl, hA⟩))
                | ok q =>
                  obtain ⟨cl2, evA⟩ := q
                  exact Or.inr (Or.inr (Or.inr ⟨cl1, evU, cl2, evA,
                    by simp [h1, h2, h3, h4, h5, h6, hu, hA], rfl, hA⟩))
        · exact Or.inl ⟨RunError.noOrigin, by simp [h1, h2, h3, h4]⟩
    · exact Or.inl ⟨RunError.untracked, by simp [h1, h2]⟩

/-- Counterexample to claim C2 as stated: the claim says the fresh section
is inserted immediately before the first line matching an anchor for any
valid version with pre-release kinds dev, alpha, beta, rc.  The line for
version 1.0.0-dev.0 is such an anchor (and 1.0.0-dev.0 passes version
validation), but the source anchor regex has no dev alternative, so the
insertion skips it and lands before the later 1.0.0 anchor instead of
before the first anchor. -/
theorem claim_C2_counterexample :
    specAnchorMatch ".. _v1.0.0-dev.0:\n" = true ∧
    (version_fullmatch "1.0.0-dev.0").isSome = true ∧
    anchor_match ".. _v1.0.0-dev.0:\n" = false ∧
    add_changelog_unreleased [".. _v1.0.0-dev.0:\n", ".. _v1.0.0:\n"] =
      Except.ok [".. _v1.0.0-dev.0:\n", "Unreleased\n", "----------\n", "\n",
        ".. _v1.0.0:\n"] ∧
    add_changelog_unreleased [".. _v1.0.0-dev.0:\n", ".. _v1.0.0:\n"] ≠
      Except.ok ["Unreleased\n", "----------\n", "\n", ".. _v1.0.0-dev.0:\n",
        ".. _v1.0.0:\n"] := by
  exact ⟨by decide, by decide, by decide, by decide, by decide⟩

/-- Claim C2 (amended): the anchor pattern recognizes pre-release kinds
alpha, beta and rc only (the source regex lists no dev alternative).  For
every changelog with no Unreleased line, inserting the fresh section places
the lines Unreleased, its ten-dash underline and a blank line immediately
before the first line matching the source anchor pattern, preserves all
other lines unchanged, and the result contains exactly one Unreleased
line. -/
theorem claim_C2 (pre rest : List String) (a : String)
    (hU : ∀ l ∈ pre ++ a :: rest, unreleasedLineMatch l = false)
    (hpre : ∀ l ∈ pre, anchor_match l = false)
    (ha : anchor_match a = true) :
    add_changelog_unreleased (pre ++ a :: rest) =
      Except.ok (pre ++ "Unreleased\n" :: "----------\n" :: "\n" :: a :: rest) ∧
    (pre ++ "Unreleased\n" :: "----------\n" :: "\n" :: a :: rest).count
      "Unreleased\n" = 1 := by
  constructor
  · have h := addAux_anchor 0 pre rest a
      (fun l hl => ⟨beq_unrel_of_match_false l (hU l (by simp [hl])),
        hpre l hl⟩) ha
    simpa [add_changelog_unreleased, unreleased_header] using h
  · have h0 : "Unreleased\n" ∉ pre := by
      intro hmem
      have h3 := beq_unrel_of_match_false "Unreleased\n"
        (hU "Unreleased\n" (by simp [hmem]))
      simp at h3
    have h1 : "Unreleased\n" ∉ rest := by
      intro hmem
      have h3 := beq_unrel_of_match_false "Unreleased\n"
        (hU "Unreleased\n" (by simp [hmem]))
      simp at h3
    have h2 : a ≠ "Unreleased\n" := by
      intro hmem
      have h3 := beq_unrel_of_match_false a (hU a (by simp))
      rw [hmem] at h3
      simp at h3
    rw [List.count_append, List.count_eq_zero.mpr h0]
    simp [List.count_cons, List.count_eq_zero.mpr h1, Ne.symm h2]

/-- Witness for the amended C2 at a concrete changelog. -/
theorem claim_C2_witness :
    add_changelog_unreleased (["Intro\n"] ++ ".. _v1.0.0:\n" :: ["rest\n"]) =
      Except.ok (["Intro\n"] ++ "Unreleased\n" :: "----------\n" :: "\n" ::
        ".. _v1.0.0:\n" :: ["rest\n"]) ∧
    (["Intro\n"] ++ "Unreleased\n" :: "----------\n" :: "\n" ::
        ".. _v1.0.0:\n" :: ["rest\n"]).count "Unreleased\n" = 1 :=
  claim_C2 ["Intro\n"] ["rest\n"] ".. _v1.0.0:\n" (by decide) (by decide)
    (by decide)

/-- Counterexample to claim C4 as stated: the claim says a changelog already
containing an Unreleased header anywhere makes the insertion fail with no
mutation, but an Unreleased line sitting after the first anchor line is
never reached by the scan: the insertion succeeds and rewrites the file. -/
theorem claim_C4_counterexample :
    "Unreleased\n" ∈ [".. _v1.0.0:\n", "Unreleased\n"] ∧
    add_changelog_unreleased [".. _v1.0.0:\n", "Unreleased\n"] =
      Except.ok ["Unreleased\n", "----------\n", "\n", ".. _v1.0.0:\n",
        "Unreleased\n"] := by
  exact ⟨by decide, by decide⟩

/-- Claim C4 (amended): for every changelog in which an Unreleased header
line occurs before any line matching the anchor pattern, the insertion
fails fatally with the already-contains error naming the one-based line
number of that header, and since the source writes the file only after a
successful scan, the changelog on disk is left unmodified.  An Unreleased
header that only occurs after the first anchor line is not detected (see
the counterexample). -/
theorem claim_C4 (pre rest : List String)
    (hpreA : ∀ l ∈ pre, anchor_match l = false)
    (hpreU : ∀ l ∈ pre, (l == "Unreleased\n") = false) :
    add_changelog_unreleased (pre ++ "Unreleased\n" :: rest) =
      Except.error (AddError.alreadyUnreleased (pre.length + 1)) := by
  have h := addAux_unreleased 0 pre rest (fun l hl => ⟨hpreU l hl, hpreA l hl⟩)
  simpa [add_changelog_unreleased] using h

/-- Witness for the amended C4 at a concrete changelog. -/
theorem claim_C4_witness :
    add_changelog_unreleased (["Intro\n"] ++ "Unreleased\n" :: ["x\n"]) =
      Except.error (AddError.alreadyUnreleased 2) :=
  claim_C4 ["Intro\n"] ["x\n"] (by decide) (by decide)

/-- Claim C5: for every changelog whose first Unreleased-matching line is an
exact Unreleased line followed by its ten-dash underline, and for every
valid version and date, the rewrite replaces exactly those two lines with a
blank line, the anchor line for the version, a blank line, the dated header
title and an underline of dashes, all other lines unchanged; the underline
length equals the header title length exactly. -/
theorem claim_C5 (v today : String) (vm : VersionMatch)
    (_hv : version_fullmatch v = some vm) (pre post : List String)
    (hpre : ∀ l ∈ pre, unreleasedLineMatch l = false) :
    update_changelog_unreleased v today
        (pre ++ "Unreleased\n" :: "----------\n" :: post) =
      Except.ok (pre ++ ["\n", ".. _v" ++ v ++ ":\n", "\n",
        versionHeaderTitle v today ++ "\n",
        dashes (versionHeaderTitle v today).length ++ "\n"] ++ post) ∧
    (dashes (versionHeaderTitle v today).length).length =
      (versionHeaderTitle v today).length := by
  constructor
  · simpa [versionHeaderLines] using update_append v today pre post hpre
  · show (List.replicate (versionHeaderTitle v today).length '-').length = _
    exact List.length_replicate _ _

/-- Witness for C5 at a concrete changelog, version and date. -/
theorem claim_C5_witness :
    update_changelog_unreleased "1.2.3" "2026-10-12"
        (["head\n"] ++ "Unreleased\n" :: "----------\n" :: ["body\n"]) =
      Except.ok (["head\n"] ++ ["\n", ".. _v" ++ "1.2.3" ++ ":\n", "\n",
        versionHeaderTitle "1.2.3" "2026-10-12" ++ "\n",
        dashes (versionHeaderTitle "1.2.3" "2026-10-12").length ++ "\n"] ++
        ["body\n"]) ∧
    (dashes (versionHeaderTitle "1.2.3" "2026-10-12").length).length =
      (versionHeaderTitle "1.2.3" "2026-10-12").length :=
  claim_C5 "1.2.3" "2026-10-12" ⟨"1".data, "2".data, "3".data, none⟩ rfl
    ["head\n"] ["body\n"] (by decide)

/-- Claim C6 (round trip): rewriting the Unreleased section for a final
version and then inserting a fresh Unreleased section yields the original
changelog with the dated header and anchor lines for the version standing
where the Unreleased pair was and the new Unreleased section placed
immediately above that anchor. -/
theorem claim_C6 (v today : String) (vm : VersionMatch)
    (hv : version_fullmatch v = some vm) (hfin : vm.pre = none)
    (pre post : List String)
    (hpreU : ∀ l ∈ pre, unreleasedLineMatch l = false)
    (hpreA : ∀ l ∈ pre, anchor_match l = false) :
    ∃ d, update_changelog_unreleased v today
        (pre ++ "Unreleased\n" :: "----------\n" :: post) = Except.ok d ∧
      add_changelog_unreleased d =
        Except.ok (pre ++ "\n" :: "Unreleased\n" :: "----------\n" :: "\n" ::
          (".. _v" ++ v ++ ":\n") :: "\n" ::
          (versionHeaderTitle v today ++ "\n") ::
          (dashes (versionHeaderTitle v today).length ++ "\n") :: post) := by
  refine ⟨_, update_append v today pre post hpreU, ?_⟩
  have hanch : anchor_match (".. _v" ++ v ++ ":\n") = true :=
    anchor_match_final v vm hv hfin
  have hsplit : pre ++ versionHeaderLines v today ++ post =
      (pre ++ ["\n"]) ++ (".. _v" ++ v ++ ":\n") ::
        ("\n" :: (versionHeaderTitle v today ++ "\n") ::
          (dashes (versionHeaderTitle v today).length ++ "\n") :: post) := by
    simp [versionHeaderLines]
  rw [hsplit]
  have hpre2 : ∀ l ∈ pre ++ ["\n"],
      (l == "Unreleased\n") = false ∧ anchor_match l = false := by
    intro l hl
    rcases List.mem_append.mp hl with h | h
    · exact ⟨beq_unrel_of_match_false l (hpreU l h), hpreA l h⟩
    · simp only [List.mem_singleton] at h
      subst h
      exact ⟨by decide, by decide⟩
  have h := addAux_anchor 0 (pre ++ ["\n"])
    ("\n" :: (versionHeaderTitle v today ++ "\n") ::
      (dashes (versionHeaderTitle v today).length ++ "\n") :: post)
    (".. _v" ++ v ++ ":\n") hpre2 hanch
  rw [add_changelog_unreleased, h]
  simp [unreleased_header]

/-- Witness for C6 at a concrete changelog, version and date. -/
theorem claim_C6_witness :
    ∃ d, update_changelog_unreleased "1.2.3" "2026-10-12"
        (["Start\n"] ++ "Unreleased\n" :: "----------\n" :: ["body\n"]) =
        Except.ok d ∧
      add_changelog_unreleased d =
        Except.ok (["Start\n"] ++ "\n" :: "Unreleased\n" :: "----------\n" ::
          "\n" :: (".. _v" ++ "1.2.3" ++ ":\n") :: "\n" ::
          (versionHeaderTitle "1.2.3" "2026-10-12" ++ "\n") ::
          (dashes (versionHeaderTitle "1.2.3" "2026-10-12").length ++ "\n") ::
          ["body\n"]) :=
  claim_C6 "1.2.3" "2026-10-12" ⟨"1".data, "2".data, "3".data, none⟩ rfl rfl
    ["Start\n"] ["body\n"] (by decide) (by decide)

theorem push_update_error_eq (st : GitState) (pg v today : String)
    (vm : VersionMatch) (hv : version_fullmatch v = some vm)
    (hfin : vm.pre = none) (e : UpdateError)
    (hupd : update_changelog_unreleased v today st.changelog =
      Except.error e) :
    push_release_commits st pg v today =
        ⟨[], st.changelog, Except.error RunError.dirty⟩ ∨
    push_release_commits st pg v today =
        ⟨[], st.changelog, Except.error RunError.untracked⟩ ∨
    push_release_commits st pg v today =
        ⟨[], st.changelog, Except.error RunError.notMainBranch⟩ ∨
    push_release_commits st pg v today =
        ⟨[], st.changelog, Except.error RunError.noOrigin⟩ ∨
    push_release_commits st pg v today =
        ⟨[GitEvent.fetch "origin"], st.changelog,
          Except.error (RunError.branchExists v)⟩ ∨
    push_release_commits st pg v today =
        ⟨[GitEvent.fetch "origin"], st.changelog,
          Except.error (RunError.tagExists v)⟩ ∨
    push_release_commits st pg v today =
        ⟨[GitEvent.fetch "origin"], st.changelog,
          Except.error (RunError.changelogUpdate e)⟩ := by
  have hstage : changelogUpdateStage vm v today st.changelog =
      Except.error e := by
    simp [changelogUpdateStage, hfin, hupd]
  unfold push_release_commits
  rw [hv]
  by_cases h1 : st.isDirty = true
  · exact Or.inl (by simp [h1])
  · by_cases h2 : st.untrackedFiles.isEmpty = true
    · by_cases h3 : ¬st.currentBranchPath = "refs/heads/main" ∧ vm.pre = none
      · exact Or.inr (Or.inr (Or.inl (by simp [h1, h2, h3.1, h3.2])))
      · by_cases h4 : "origin" ∈ st.remotes
        · by_cases h5 : ("refs/remotes/origin/release/" ++ v) ∈
              st.remoteBranchRefs
          · exact Or.inr (Or.inr (Or.inr (Or.inr (Or.inl
              (by simp [h1, h2, h3, h4, h5])))))
          · by_cases h6 : v ∈ st.tags
            · exact Or.inr (Or.inr (Or.inr (Or.inr (Or.inr (Or.inl
                (by simp [h1, h2, h3, h4, h5, h6]))))))
            · exact Or.inr (Or.inr (Or.inr (Or.inr (Or.inr (Or.inr
                (by simp [h1, h2, h3, h4, h5, h6, hstage]))))))
        · exact Or.inr (Or.inr (Or.inr (Or.inl (by simp [h1, h2, h3, h4]))))
    · exact Or.inr (Or.inl (by simp [h1, h2]))

/-- Claim C7: the rewrite fails with the malformed section header error iff
the first line matching the Unreleased pattern is not immediately followed
by the ten-dash underline line; it fails with the not-found error iff no
line matches the Unreleased pattern; and when the rewrite fails during a
final release run, the run stops with an error having performed no mutating
event, and the changelog on disk is unchanged. -/
theorem claim_C7 (v today : String) (doc : List String) :
    (update_changelog_unreleased v today doc =
        Except.error UpdateError.malformed ↔
      ∃ pre l rest, doc = pre ++ l :: rest ∧ unreleasedLineMatch l = true ∧
        (∀ x ∈ pre, unreleasedLineMatch x = false) ∧
        rest.head? ≠ some "----------\n") ∧
    (update_changelog_unreleased v today doc =
        Except.error UpdateError.notFound ↔
      ∀ l ∈ doc, unreleasedLineMatch l = false) ∧
    (∀ (st : GitState) (pg : String) (vm : VersionMatch) (e : UpdateError),
      version_fullmatch v = some vm → vm.pre = none →
      update_changelog_unreleased v today st.changelog = Except.error e →
      (push_release_commits st pg v today).events.filter GitEvent.mutates =
        [] ∧
      (push_release_commits st pg v today).changelog = st.changelog ∧
      ∃ m, (push_release_commits st pg v today).result = Except.error m) := by
  refine ⟨update_malformed_iff v today doc, update_notFound_iff v today doc,
    ?_⟩
  intro st pg vm e hv hfin hupd
  rcases push_update_error_eq st pg v today vm hv hfin e hupd with
    h | h | h | h | h | h | h <;> rw [h] <;> exact ⟨rfl, rfl, _, rfl⟩

/-- Witness for C7 at a concrete state whose changelog lacks an Unreleased
section. -/
theorem claim_C7_witness :
    (push_release_commits { mainState with changelog := ["entries\n"] }
        "org/repo" "1.2.3" "2026-10-12").events.filter GitEvent.mutates =
      [] :=
  ((claim_C7 "1.2.3" "2026-10-12" ["entries\n"]).2.2
    { mainState with changelog := ["entries\n"] } "org/repo"
    ⟨"1".data, "2".data, "3".data, none⟩ UpdateError.notFound rfl rfl
    (by decide)).1

/-- Counterexample to claim C3 as stated: a pre-release run skips the
changelog insert but the post-release staging and commit sit outside the
conditional in the source, so the run creates two commits, including a
post-release commit — not exactly one commit. -/
theorem claim_C3_counterexample :
    version_fullmatch "1.2.3-rc.1" =
      some ⟨"1".data, "2".data, "3".data, some ("rc".data, "1".data)⟩ ∧
    (push_release_commits featureState "org/repo" "1.2.3-rc.1"
        "2026-10-12").events.filter isCommitEvent =
      [GitEvent.commit "[auto] Release 1.2.3-rc.1",
       GitEvent.commit "[auto] Post-release 1.2.3-rc.1"] ∧
    GitEvent.commit "[auto] Post-release 1.2.3-rc.1" ∈
      (push_release_commits featureState "org/repo" "1.2.3-rc.1"
        "2026-10-12").events ∧
    ((push_release_commits featureState "org/repo" "1.2.3-rc.1"
        "2026-10-12").events.filter isCommitEvent).length ≠ 1 := by
  exact ⟨by decide, by decide, by decide, by decide⟩

/-- Claim C3 (amended): for every release run whose version carries a
pre-release qualifier, both changelog steps are skipped, so the changelog
file is never written and ends unchanged; but the post-release staging and
commit still run, so a successful pre-release run produces exactly two
commits: the release commit followed by the post-release commit. -/
theorem claim_C3 (st : GitState) (pg v today : String) (vm : VersionMatch)
    (hv : version_fullmatch v = some vm) (hpre : vm.pre.isSome = true) :
    (∀ e ∈ (push_release_commits st pg v today).events,
      e ≠ GitEvent.writeChangelog) ∧
    (push_release_commits st pg v today).changelog = st.changelog ∧
    (∀ urls, (push_release_commits st pg v today).result = Except.ok urls →
      (push_release_commits st pg v today).events.filter isCommitEvent =
        [GitEvent.commit ("[auto] Release " ++ v),
         GitEvent.commit ("[auto] Post-release " ++ v)]) := by
  rcases push_shape st pg v today vm hv with
    ⟨er, h⟩ | ⟨er, h⟩ | ⟨cl1, evU, e, h, hu, hA⟩ |
    ⟨cl1, evU, cl2, evA, h, hu, hA⟩
  · rw [h]
    refine ⟨?_, rfl, ?_⟩
    · intro e he; simp at he
    · intro urls hurl; simp at hurl
  · rw [h]
    refine ⟨?_, rfl, ?_⟩
    · intro e he
      simp at he
      subst he
      simp
    · intro urls hurl; simp at hurl
  · rw [addStage_pre_skip vm cl1 hpre] at hA
    exact absurd hA (by simp)
  · rw [updateStage_pre_skip vm v today st.changelog hpre] at hu
    rw [addStage_pre_skip vm cl1 hpre] at hA
    simp only [Except.ok.injEq, Prod.mk.injEq] at hu hA
    obtain ⟨hcl1, hevU⟩ := hu
    obtain ⟨-, hevA⟩ := hA
    subst hevU
    subst hevA
    subst hcl1
    rw [h]
    refine ⟨?_, rfl, ?_⟩
    · intro e he heq
      subst heq
      simp [releaseEvents, finishEvents] at he
    · intro urls hurl
      simp [releaseEvents, finishEvents, isCommitEvent]

/-- Witness for the amended C3 on a pre-release run from a feature
branch. -/
theorem claim_C3_witness :
    (push_release_commits featureState "org/repo" "1.2.3-rc.1"
        "2026-10-12").changelog = featureState.changelog :=
  (claim_C3 featureState "org/repo" "1.2.3-rc.1" "2026-10-12"
    ⟨"1".data, "2".data, "3".data, some ("rc".data, "1".data)⟩ rfl rfl).2.1

/-- Claim C8: a final release run from a branch other than main is rejected
before any event and before any file change; a version with a valid
pre-release suffix never trips the branch check, from any branch. -/
theorem claim_C8 (st : GitState) (pg v today : String) (vm : VersionMatch)
    (hv : version_fullmatch v = some vm) :
    (vm.pre = none → st.currentBranchPath ≠ "refs/heads/main" →
      (push_release_commits st pg v today).events = [] ∧
      (push_release_commits st pg v today).changelog = st.changelog ∧
      ∃ m, (push_release_commits st pg v today).result = Except.error m) ∧
    (vm.pre.isSome = true →
      (push_release_commits st pg v today).result ≠
        Except.error RunError.notMainBranch) := by
  constructor
  · intro hfin hbr
    unfold push_release_commits
    rw [hv]
    by_cases h1 : st.isDirty = true
    · simp [h1]
    · by_cases h2 : st.untrackedFiles.isEmpty = true
      · simp [h1, h2, hbr, hfin]
      · simp [h1, h2]
  · intro hpre
    have hnone : vm.pre ≠ none := Option.ne_none_iff_isSome.mpr hpre
    unfold push_release_commits
    rw [hv]
    by_cases h1 : st.isDirty = true
    · simp [h1]
    · by_cases h2 : st.untrackedFiles.isEmpty = true
      · by_cases h4 : "origin" ∈ st.remotes
        · by_cases h5 : ("refs/remotes/origin/release/" ++ v) ∈
              st.remoteBranchRefs
          · simp [h1, h2, hnone, h4, h5]
          · by_cases h6 : v ∈ st.tags
            · simp [h1, h2, hnone, h4, h5, h6]
            · cases hu : changelogUpdateStage vm v today st.changelog with
              | error e => simp [h1, h2, hnone, h4, h5, h6, hu]
              | ok p =>
                obtain ⟨cl1, evU⟩ := p
                cases hA : changelogAddStage vm cl1 with
                | error e => simp [h1, h2, hnone, h4, h5, h6, hu, hA]
                | ok q =>
                  obtain ⟨cl2, evA⟩ := q
                  simp [h1, h2, hnone, h4, h5, h6, hu, hA]
        · simp [h1, h2, hnone, h4]
      · simp [h1, h2]

/-- Witness for C8: a final release from a feature branch is rejected with
no events, and a pre-release from the same branch never sees the branch
error. -/
theorem claim_C8_witness :
    (push_release_commits featureState "org/repo" "1.2.3"
        "2026-10-12").events = [] ∧
    (push_release_commits featureState "org/repo" "1.2.3-rc.1"
        "2026-10-12").result ≠ Except.error RunError.notMainBranch := by
  constructor
  · exact ((claim_C8 featureState "org/repo" "1.2.3" "2026-10-12"
      ⟨"1".data, "2".data, "3".data, none⟩ rfl).1 rfl (by decide)).1
  · exact (claim_C8 featureState "org/repo" "1.2.3-rc.1" "2026-10-12"
      ⟨"1".data, "2".data, "3".data, some ("rc".data, "1".data)⟩ rfl).2 rfl

/-- Claim C9: in every successful run the trace ends with the branch push,
then the tag push, then the checkout of the original branch and the hard
reset, in that order, and no push event occurs earlier in the trace. -/
theorem claim_C9 (st : GitState) (pg v today : String)
    (urls : String × String)
    (h : (push_release_commits st pg v today).result = Except.ok urls) :
    ∃ evs, (push_release_commits st pg v today).events =
        evs ++ [GitEvent.pushBranch "origin" ("release/" ++ v),
          GitEvent.pushTag "origin" v,
          GitEvent.setHead st.currentBranchPath, GitEvent.resetHard] ∧
      ∀ e ∈ evs, isPush e = false := by
  rcases ho : version_fullmatch v with - | vm
  · rw [show push_release_commits st pg v today =
        ⟨[], st.changelog, Except.error RunError.badVersion⟩ from by
      unfold push_release_commits; rw [ho]] at h
    simp at h
  · rcases push_shape st pg v today vm ho with
      ⟨er, hsh⟩ | ⟨er, hsh⟩ | ⟨cl1, evU, e2, hsh, hu, hA⟩ |
      ⟨cl1, evU, cl2, evA, hsh, hu, hA⟩
    · rw [hsh] at h; simp at h
    · rw [hsh] at h; simp at h
    · rw [hsh] at h; simp at h
    · rw [hsh]
      refine ⟨GitEvent.fetch "origin" :: evU ++ releaseEvents v ++ evA ++
        [GitEvent.stage "CHANGELOG.rst",
         GitEvent.commit ("[auto] Post-release " ++ v)], ?_, ?_⟩
      · simp [finishEvents, List.append_assoc]
      · rcases updateStage_events vm v today st.changelog cl1 evU hu with
          hU | hU <;>
        rcases addStage_events vm cl1 cl2 evA hA with hA2 | hA2 <;>
          subst hU <;> subst hA2 <;>
          intro e he <;>
          cases e <;>
            first
              | rfl
              | (exfalso; simp [releaseEvents] at he)

/-- Witness for C9 on a successful final release run. -/
theorem claim_C9_witness :
    ∃ evs, (push_release_commits mainState "org/repo" "1.2.3"
        "2026-10-12").events =
        evs ++ [GitEvent.pushBranch "origin" ("release/" ++ "1.2.3"),
          GitEvent.pushTag "origin" "1.2.3",
          GitEvent.setHead mainState.currentBranchPath, GitEvent.resetHard] ∧
      ∀ e ∈ evs, isPush e = false :=
  claim_C9 mainState "org/repo" "1.2.3" "2026-10-12"
    (tagUrl "org/repo" "1.2.3", compareUrl "org/repo" "1.2.3") rfl

theorem push_events_changelog_err_pg (st : GitState)
    (pg pg2 v today : String) :
    (push_release_commits st pg v today).events =
      (push_release_commits st pg2 v today).events ∧
    (push_release_commits st pg v today).changelog =
      (push_release_commits st pg2 v today).changelog ∧
    ∀ er, ((push_release_commits st pg v today).result = Except.error er ↔
      (push_release_commits st pg2 v today).result = Except.error er) := by
  unfold push_release_commits
  cases ho : version_fullmatch v with
  | none => simp
  | some vm =>
    by_cases h1 : st.isDirty = true
    · simp [h1]
    · by_cases h2 : st.untrackedFiles.isEmpty = true
      · by_cases h3 : ¬st.currentBranchPath = "refs/heads/main" ∧
            vm.pre = none
        · simp [h1, h2, h3.1, h3.2]
        · by_cases h4 : "origin" ∈ st.remotes
          · by_cases h5 : ("refs/remotes/origin/release/" ++ v) ∈
                st.remoteBranchRefs
            · simp [h1, h2, h3, h4, h5]
            · by_cases h6 : v ∈ st.tags
              · simp [h1, h2, h3, h4, h5, h6]
              · cases hu : changelogUpdateStage vm v today st.changelog with
                | error e => simp [h1, h2, h3, h4, h5, h6, hu]
                | ok p =>
                  obtain ⟨cl1, evU⟩ := p
                  cases hA : changelogAddStage vm cl1 with
                  | error e => simp [h1, h2, h3, h4, h5, h6, hu, hA]
                  | ok q =>
                    obtain ⟨cl2, evA⟩ := q
                    simp [h1, h2, h3, h4, h5, h6, hu, hA]
          · simp [h1, h2, h3, h4]
      · simp [h1, h2]

theorem push_remotes_invariant (st : GitState) (pg v today : String)
    (rs : List String)
    (hr : rs.contains "origin" = st.remotes.contains "origin") :
    push_release_commits { st with remotes := rs } pg v today =
      push_release_commits st pg v today := by
  unfold push_release_commits
  rw [show ({ st with remotes := rs } : GitState).remotes = rs from rfl, hr]
  rfl

theorem push_events_remote (st : GitState) (pg v today : String) :
    ∀ e ∈ (push_release_commits st pg v today).events,
      eventRemote e = none ∨ eventRemote e = some "origin" := by
  rcases ho : version_fullmatch v with - | vm
  · intro e he
    rw [show push_release_commits st pg v today =
        ⟨[], st.changelog, Except.error RunError.badVersion⟩ from by
      unfold push_release_commits; rw [ho]] at he
    simp at he
  · rcases push_shape st pg v today vm ho with
      ⟨er, hsh⟩ | ⟨er, hsh⟩ | ⟨cl1, evU, e2, hsh, hu, hA⟩ |
      ⟨cl1, evU, cl2, evA, hsh, hu, hA⟩
    · intro e he; rw [hsh] at he; simp at he
    · intro e he
      rw [hsh] at he
      simp at he
      subst he
      exact Or.inr rfl
    · intro e he
      rw [hsh] at he
      rcases updateStage_events vm v today st.changelog cl1 evU hu with
        hU | hU <;>
        subst hU <;>
        cases e <;>
          first
            | exact Or.inl rfl
            | (simp [releaseEvents] at he
               subst he
               exact Or.inr rfl)
            | (exfalso; simp [releaseEvents] at he)
    · intro e he
      rw [hsh] at he
      rcases updateStage_events vm v today st.changelog cl1 evU hu with
        hU | hU <;>
        rcases addStage_events vm cl1 cl2 evA hA with hA2 | hA2 <;>
        subst hU <;> subst hA2 <;>
        cases e <;>
          first
            | exact Or.inl rfl
            | (simp [releaseEvents, finishEvents] at he
               first
                 | (subst he; exact Or.inr rfl)
                 | (obtain ⟨rfl, -⟩ := he; exact Or.inr rfl))

/-- Claim C10 (implicit): every fetch and push in the trace addresses the
remote named origin; the caller-supplied repository identifier influences
neither the trace, nor the final changelog, nor which error is reported —
only the reported tag and comparison URLs; and the run reads the remote
list only through the existence of origin. -/
theorem claim_C10 (st : GitState) (pg pg2 v today : String) :
    (push_release_commits st pg v today).events =
      (push_release_commits st pg2 v today).events ∧
    (push_release_commits st pg v today).changelog =
      (push_release_commits st pg2 v today).changelog ∧
    (∀ er, (push_release_commits st pg v today).result = Except.error er ↔
      (push_release_commits st pg2 v today).result = Except.error er) ∧
    (∀ e ∈ (push_release_commits st pg v today).events,
      eventRemote e = none ∨ eventRemote e = some "origin") ∧
    (∀ rs : List String,
      rs.contains "origin" = st.remotes.contains "origin" →
      push_release_commits { st with remotes := rs } pg v today =
        push_release_commits st pg v today) ∧
    (∀ urls, (push_release_commits st pg v today).result = Except.ok urls →
      urls = (tagUrl pg v, compareUrl pg v)) := by
  obtain ⟨he, hc, herr⟩ := push_events_changelog_err_pg st pg pg2 v today
  refine ⟨he, hc, herr, push_events_remote st pg v today,
    fun rs hr => push_remotes_invariant st pg v today rs hr, ?_⟩
  intro urls hurl
  rcases ho : version_fullmatch v with - | vm
  · rw [show push_release_commits st pg v today =
        ⟨[], st.changelog, Except.error RunError.badVersion⟩ from by
      unfold push_release_commits; rw [ho]] at hurl
    simp at hurl
  · rcases push_shape st pg v today vm ho with
      ⟨er, hsh⟩ | ⟨er, hsh⟩ | ⟨cl1, evU, e2, hsh, -, -⟩ |
      ⟨cl1, evU, cl2, evA, hsh, -, -⟩
    · rw [hsh] at hurl; simp at hurl
    · rw [hsh] at hurl; simp at hurl
    · rw [hsh] at hurl; simp at hurl
    · obtain ⟨u1, u2⟩ := urls
      rw [hsh] at hurl
      simp only [Except.ok.injEq, Prod.mk.injEq] at hurl
      obtain ⟨h5, h6⟩ := hurl
      rw [← h5, ← h6]

/-- Witness for C10: adding an unrelated remote does not change the run, and
the reported URLs are the documented ones. -/
theorem claim_C10_witness :
    push_release_commits { mainState with remotes := ["origin", "backup"] }
        "org/repo" "1.2.3" "2026-10-12" =
      push_release_commits mainState "org/repo" "1.2.3" "2026-10-12" ∧
    (tagUrl "org/repo" "1.2.3", compareUrl "org/repo" "1.2.3") =
      (tagUrl "org/repo" "1.2.3", compareUrl "org/repo" "1.2.3") := by
  constructor
  · exact (claim_C10 mainState "org/repo" "other/repo" "1.2.3"
      "2026-10-12").2.2.2.2.1 ["origin", "backup"] rfl
  · exact (claim_C10 mainState "org/repo" "other/repo" "1.2.3"
      "2026-10-12").2.2.2.2.2
      (tagUrl "org/repo" "1.2.3", compareUrl "org/repo" "1.2.3") rfl

end NoxRelease
